import Mathlib

/-!
Verification development for the bank-statement analyzer
(`BankAnalyzer_Desktop.FINAL.code.py`).  The core logic (monetary
normalization, counterparty extraction, industry classification, the rule
engine, the policy mapper and the aggregation pipeline) is shallowly embedded
below; monetary amounts are modelled as exact rationals, pandas data frames as
lists of transactions, and Python sets as lists in first-construction order.
-/

namespace BankAnalyzer

/-! ### Python string primitives -/

/-- Python whitespace characters (as recognized by `str.strip`, `str.split`
and the regex class). -/
def pyWs (c : Char) : Bool :=
  c == ' ' || c == '\t' || c == '\n' || c == '\r' || c == Char.ofNat 11 || c == Char.ofNat 12

/-- `str.strip()` on a character list. -/
def trimWs (l : List Char) : List Char :=
  ((l.dropWhile pyWs).reverse.dropWhile pyWs).reverse

/-- Value of a digit string, most significant first. -/
def digitsVal (l : List Char) : Nat :=
  l.foldl (fun n c => 10 * n + (c.toNat - 48)) 0

/-- Split a list at the first character satisfying `p`; returns the part
before it and, when it occurs, the part after it. -/
def splitFirst (p : Char → Bool) : List Char → List Char × Option (List Char)
  | [] => ([], none)
  | c :: cs =>
    if p c then ([], some cs)
    else
      let r := splitFirst p cs
      (c :: r.1, r.2)

/-! ### Python `float()` on the decimal forms that occur in money cells
(sign, digits, decimal point, exponent).  Exotic accepted spellings such as
`inf`, `nan` or digit-group underscores are outside the model. -/

/-- Unsigned mantissa: `digits [. digits]` with at least one digit. -/
def parseUnsigned (l : List Char) : Option ℚ :=
  let r := splitFirst (· == '.') l
  match r.2 with
  | none =>
    if r.1.isEmpty then none
    else if r.1.all Char.isDigit then some (digitsVal r.1 : ℚ) else none
  | some fp =>
    if r.1.isEmpty && fp.isEmpty then none
    else if r.1.all Char.isDigit && fp.all Char.isDigit then
      some ((digitsVal r.1 : ℚ) + (digitsVal fp : ℚ) / (10 : ℚ) ^ fp.length)
    else none

/-- Optional leading sign; returns (isNegative, rest). -/
def splitSign : List Char → Bool × List Char
  | '+' :: t => (false, t)
  | '-' :: t => (true, t)
  | t => (false, t)

/-- Signed integer exponent after `e`/`E`. -/
def parseExp (l : List Char) : Option ℤ :=
  match l with
  | '+' :: t => if !t.isEmpty && t.all Char.isDigit then some (digitsVal t : ℤ) else none
  | '-' :: t => if !t.isEmpty && t.all Char.isDigit then some (-(digitsVal t : ℤ)) else none
  | t => if !t.isEmpty && t.all Char.isDigit then some (digitsVal t : ℤ) else none

/-- `float(s)` on the decimal subset: strip whitespace, optional sign,
mantissa, optional exponent. `none` models a `ValueError`. -/
def parseFloatChars (l0 : List Char) : Option ℚ :=
  let l := trimWs l0
  let sg := splitSign l
  let me := splitFirst (fun c => c == 'e' || c == 'E') sg.2
  match parseUnsigned me.1 with
  | none => none
  | some m =>
    match me.2 with
    | none => some (if sg.1 then -m else m)
    | some ep =>
      match parseExp ep with
      | none => none
      | some e => some (if sg.1 then -(m * (10 : ℚ) ^ e) else m * (10 : ℚ) ^ e)

/-! ### `moneyfy` -/

/-- `str(x).replace(",", "").strip()` on the cell text. -/
def cleanMoney (s : String) : List Char :=
  trimWs (s.data.filter (fun c => !(c == ',')))

/-- `moneyfy` from the source: `none` models a missing cell (`pd.isna`);
a parenthesized amount is the negated inner amount; any parse failure
(the bare `except`) yields `0.0`. -/
def moneyfy (x : Option String) : ℚ :=
  match x with
  | none => 0
  | some s =>
    let l := cleanMoney s
    if l.head? == some '(' && l.getLast? == some ')' then
      match parseFloatChars ((l.drop 1).dropLast) with
      | some q => -q
      | none => 0
    else if l.isEmpty then 0
    else
      match parseFloatChars l with
      | some q => q
      | none => 0

/-! ### `get_counterparty`

The pattern `([A-Za-z0-9 &\.-]+(?:SDN BHD|BERHAD|PLT|ENTERPRISE|TRADING|HOLDINGS|CAFE|CENTRE|SENDIRIAN))`
with `re.I` is modelled directly: `re.search` takes the leftmost starting
position admitting a match; at a fixed start the greedy `+` consumes the
longest run of class characters after which one of the alternatives (tried in
written order) matches case-insensitively. -/

/-- The character class `[A-Za-z0-9 &\.-]` (ASCII). -/
def isClassChar (c : Char) : Bool :=
  c.isAlphanum || c == ' ' || c == '&' || c == '.' || c == '-'

/-- The legal-entity-suffix alternatives, in the pattern's order. -/
def SUFFIXES : List String :=
  ["SDN BHD", "BERHAD", "PLT", "ENTERPRISE", "TRADING", "HOLDINGS", "CAFE", "CENTRE", "SENDIRIAN"]

/-- Case-insensitive literal match of `pat` against the front of `l`. -/
def ciPrefixEq : List Char → List Char → Bool
  | [], _ => true
  | _ :: _, [] => false
  | p :: ps, t :: ts => (p.toUpper == t.toUpper) && ciPrefixEq ps ts

/-- Length of the first suffix alternative matching at the front of `l`. -/
def altLen (l : List Char) : Option Nat :=
  (SUFFIXES.find? (fun suf => ciPrefixEq suf.data l)).map String.length

/-- Greedy backtracking of `X+`: try runs of length `i`, `i-1`, ..., `1`;
return the full match (run plus suffix) for the longest run whose endpoint
starts an alternative. -/
def tryLen : Nat → List Char → Option (List Char)
  | 0, _ => none
  | i + 1, l =>
    match altLen (l.drop (i + 1)) with
    | some k => some (l.take (i + 1 + k))
    | none => tryLen i l

/-- Length of the maximal run of class characters at the front. -/
def classRun (l : List Char) : Nat :=
  (l.takeWhile isClassChar).length

/-- `re.search`: leftmost starting position, then greedy within it.
Returns the matched text (which is also capture group 1). -/
def reSearch : List Char → Option (List Char)
  | [] => none
  | c :: rest =>
    match tryLen (classRun (c :: rest)) (c :: rest) with
    | some m => some m
    | none => reSearch rest

/-- `re.sub(r"\s+", " ", ·)`: collapse each whitespace run to one space. -/
def collapseWs : List Char → List Char
  | [] => []
  | [c] => if pyWs c then [' '] else [c]
  | c :: d :: rest =>
    if pyWs c && pyWs d then collapseWs (d :: rest)
    else (if pyWs c then ' ' else c) :: collapseWs (d :: rest)

/-- Uppercase (ASCII, as in `str.upper` on these inputs). -/
def toUpperL (l : List Char) : List Char := l.map Char.toUpper

/-- The class `[A-Za-z0-9 ]` used by the fallback substitution. -/
def isAlnumSpace (c : Char) : Bool := c.isAlphanum || c == ' '

/-- `str.split()` worker: `acc` holds the current token reversed. -/
def splitWsAux : List Char → List Char → List (List Char)
  | [], acc => if acc.isEmpty then [] else [acc.reverse]
  | c :: cs, acc =>
    if pyWs c then
      (if acc.isEmpty then splitWsAux cs [] else acc.reverse :: splitWsAux cs [])
    else splitWsAux cs (c :: acc)

/-- `str.split()`: maximal non-whitespace runs. -/
def splitWsL (l : List Char) : List (List Char) := splitWsAux l []

/-- `" ".join`. -/
def joinSpaceL : List (List Char) → List Char
  | [] => []
  | [a] => a
  | a :: b :: rest => a ++ ' ' :: joinSpaceL (b :: rest)

/-- `get_counterparty` from the source; `none` models a non-string cell. -/
def get_counterparty (desc : Option String) : String :=
  match desc with
  | none => "UNKNOWN"
  | some s =>
    match reSearch s.data with
    | some m => String.mk (toUpperL (trimWs (collapseWs m)))
    | none =>
      let parts := splitWsL (s.data.map (fun c => if isAlnumSpace c then c else ' '))
      match parts with
      | [] => "UNKNOWN"
      | _ => String.mk (toUpperL (joinSpaceL (parts.take 4)))

/-! ### Industry classifier -/

def BASE_INDUSTRY : String := "food"

/-- The keyword taxonomy, in the dict's insertion order; each keyword set is
kept as a list (`any` over it is order-insensitive). -/
def INDUSTRY_KEYWORDS : List (String × List String) :=
  [("food", ["food", "cafe", "restaurant", "eatery", "bakery", "drink", "grocer", "catering"]),
   ("construction", ["cement", "steel", "hardware", "concrete", "construction", "builder"]),
   ("healthcare", ["clinic", "hospital", "medical", "pharma", "health"]),
   ("logistics", ["transport", "delivery", "freight", "courier"]),
   ("education", ["school", "college", "academy", "training", "tuition"])]

/-- Case-sensitive literal match at the front of `l`. -/
def prefixEq : List Char → List Char → Bool
  | [], _ => true
  | _ :: _, [] => false
  | p :: ps, t :: ts => (p == t) && prefixEq ps ts

/-- Python `needle in hay` substring containment. -/
def containsSub (hay needle : List Char) : Bool :=
  match hay with
  | [] => needle.isEmpty
  | _ :: t => prefixEq needle hay || containsSub t needle

def toLowerL (l : List Char) : List Char := l.map Char.toLower

/-- `detect_other_industries`: the industries (in taxonomy order) with at
least one keyword occurring in the lowercased narrative; the Python set is
modelled as this duplicate-free list. -/
def detect_other_industries (desc : Option String) : List String :=
  match desc with
  | none => []
  | some s =>
    (INDUSTRY_KEYWORDS.filter
      (fun p => p.2.any (fun k => containsSub (toLowerL s.data) k.data))).map Prod.fst

/-! ### Policy matrix and `build_policy_actions` -/

structure PolicyItem where
  level : String
  action : String
deriving DecidableEq

def ITEM_CONCENTRATION : PolicyItem :=
  ⟨"Enhanced Review",
   "Assess income concentration risk and apply a haircut/discount to this income source when calculating sustainable income and affordability."⟩

def ITEM_MISMATCH : PolicyItem :=
  ⟨"Clarification Required",
   "Request clarification and supporting documents (e.g., invoices, contracts, delivery proof) to verify whether inflows represent genuine operating revenue. Consider excluding non-core inflows."⟩

def ITEM_ROUND : PolicyItem :=
  ⟨"Cash Flow Normalization",
   "Perform cash flow normalization by excluding unusually round or repetitive transactions. Review for potential fund cycling or related-party transfers."⟩

def ITEM_ESCALATE : PolicyItem :=
  ⟨"Escalate",
   "Escalate to Credit Risk / Compliance for enhanced due diligence before proceeding with any lending decision."⟩

def ITEM_MONITOR : PolicyItem :=
  ⟨"Monitor",
   "Obtain additional explanation and monitor closely before fully recognizing this income as sustainable."⟩

def ITEM_STANDARD : PolicyItem :=
  ⟨"Standard", "No immediate action required. Continue standard monitoring."⟩

/-- `POLICY_MATRIX`, in the dict's insertion order. -/
def POLICY_MATRIX : List (String × PolicyItem) :=
  [("INCOME_CONCENTRATION", ITEM_CONCENTRATION),
   ("INDUSTRY_MISMATCH", ITEM_MISMATCH),
   ("ROUND_AMOUNT_PATTERN", ITEM_ROUND),
   ("ESCALATE_HIGH", ITEM_ESCALATE),
   ("MONITOR_MEDIUM", ITEM_MONITOR),
   ("STANDARD_SAFE", ITEM_STANDARD)]

/-- `rid in POLICY_MATRIX` / `POLICY_MATRIX[rid]`. -/
def lookupPolicy (rid : String) : Option PolicyItem :=
  (POLICY_MATRIX.find? (fun p => p.1 == rid)).map Prod.snd

/-- The `priority` dict with its `.get(lvl, 0)` default. -/
def priorityOf (lvl : String) : Nat :=
  if lvl == "Escalate" then 5
  else if lvl == "Cash Flow Normalization" then 4
  else if lvl == "Enhanced Review" then 3
  else if lvl == "Clarification Required" then 2
  else if lvl == "Monitor" then 1
  else if lvl == "Standard" then 0
  else 0

/-- The `items` list: matrix entries of the recognized rule ids (unknown ids
silently skipped) followed by exactly one risk-based entry. -/
def policyItems (risk : String) (ruleIds : List String) : List PolicyItem :=
  ruleIds.filterMap lookupPolicy ++
    [if risk == "High" then ITEM_ESCALATE
     else if risk == "Medium" then ITEM_MONITOR
     else ITEM_STANDARD]

/-- The loop over `items`: deduplicate action texts in first-seen order and
keep the strictly-highest-priority level seen so far. -/
def policyLoop : List PolicyItem → String → List String → List String → String × List String
  | [], lvl, acts, _ => (lvl, acts)
  | it :: rest, lvl, acts, seen =>
    policyLoop rest
      (if priorityOf lvl < priorityOf it.level then it.level else lvl)
      (if seen.contains it.action then acts else acts ++ [it.action])
      (if seen.contains it.action then seen else seen ++ [it.action])

/-- `" ".join`. -/
def joinSpace : List String → String
  | [] => ""
  | [a] => a
  | a :: b :: rest => a ++ " " ++ joinSpace (b :: rest)

/-- `"; ".join`. -/
def joinSemi : List String → String
  | [] => ""
  | [a] => a
  | a :: b :: rest => a ++ "; " ++ joinSemi (b :: rest)

/-- The deduplicated action-text list produced by the loop. -/
def policyActionsList (risk : String) (ruleIds : List String) : List String :=
  (policyLoop (policyItems risk ruleIds) "Standard" [] []).2

/-- `build_policy_actions`: the final action level and the joined text. -/
def build_policy_actions (risk : String) (ruleIds : List String) : String × String :=
  ((policyLoop (policyItems risk ruleIds) "Standard" [] []).1,
   joinSpace (policyActionsList risk ruleIds))

/-- The six action levels appearing in the policy matrix. -/
def sixLevels : List String :=
  ["Escalate", "Cash Flow Normalization", "Enhanced Review",
   "Clarification Required", "Monitor", "Standard"]

/-! ### Transactions and the aggregation pipeline -/

/-- One row after column resolution: `desc`, `credit` and `debit` cells
(`none` models a missing value). -/
structure RawRow where
  desc : Option String
  creditCell : Option String
  debitCell : Option String
deriving DecidableEq

/-- `str(x)` on the description for the narrative column (`astype(str)`
turns a missing value into `"nan"`). -/
def descToStr : Option String → String
  | some s => s
  | none => "nan"

/-- A parsed transaction row: the derived columns of `run_analysis`. -/
structure Txn where
  company : String
  credit : ℚ
  debit : ℚ
  desc : String
deriving DecidableEq

/-- Derivation of a transaction from a raw row: `df["credit"] =
df[credit_col].apply(moneyfy)` etc. and `df["company"] =
df["desc"].apply(get_counterparty)`. -/
def txnOfRow (r : RawRow) : Txn :=
  { company := get_counterparty r.desc
    credit := moneyfy r.creditCell
    debit := moneyfy r.debitCell
    desc := descToStr r.desc }

/-- `data["credit"].sum()`. -/
def totalIn (data : List Txn) : ℚ := (data.map Txn.credit).sum

/-- `data["debit"].sum()`. -/
def totalOut (data : List Txn) : ℚ := (data.map Txn.debit).sum

/-- The KPI triple (total inflow, total outflow, net). -/
def grandTotals (data : List Txn) : ℚ × ℚ × ℚ :=
  (totalIn data, totalOut data, totalIn data - totalOut data)

/-- `data[data["credit"] > 0]`. -/
def creditRows (data : List Txn) : List Txn :=
  data.filter (fun t => decide ((0 : ℚ) < t.credit))

/-- The group keys of `groupby("company")` (pandas sorts them ascending). -/
def companiesSorted (data : List Txn) : List String :=
  List.insertionSort (· ≤ ·) ((creditRows data).map Txn.company).dedup

/-- Summed credit of one company group. -/
def groupSum (data : List Txn) (c : String) : ℚ :=
  (((creditRows data).filter (fun t => t.company == c)).map Txn.credit).sum

/-- The grouped series: sorted keys paired with group sums. -/
def grouped (data : List Txn) : List (String × ℚ) :=
  (companiesSorted data).map (fun c => (c, groupSum data c))

/-- The descending-by-value order used by `nlargest`; on equal values the
stable sort keeps the earlier (lexicographically smaller key) entry first. -/
def byCreditDesc (a b : String × ℚ) : Prop := b.2 ≤ a.2

instance : DecidableRel byCreditDesc :=
  fun a b => inferInstanceAs (Decidable (b.2 ≤ a.2))

instance : IsTotal (String × ℚ) byCreditDesc :=
  ⟨fun a b => le_total b.2 a.2⟩

instance : IsTrans (String × ℚ) byCreditDesc :=
  ⟨fun _ _ _ h₁ h₂ => le_trans h₂ h₁⟩

/-- `.nlargest(5)` on the grouped series. -/
def top5 (data : List Txn) : List (String × ℚ) :=
  (List.insertionSort byCreditDesc (grouped data)).take 5

/-- Round half to even (the rounding used by pandas `.round`). -/
def roundHalfEven (q : ℚ) : ℤ :=
  if q - ⌊q⌋ < 1 / 2 then ⌊q⌋
  else if 1 / 2 < q - ⌊q⌋ then ⌊q⌋ + 1
  else if Even ⌊q⌋ then ⌊q⌋ else ⌊q⌋ + 1

/-- `.round(1)`. -/
def round1 (q : ℚ) : ℚ := (roundHalfEven (q * 10) : ℚ) / 10

/-- `top5["pct"] = (top5["credit"] / total_in * 100).round(1)`. -/
def pctOf (data : List Txn) (g : ℚ) : ℚ := round1 (g / totalIn data * 100)

/-- `data[(data["company"] == company) & (data["credit"] > 0)]`. -/
def txnsOf (data : List Txn) (c : String) : List Txn :=
  data.filter (fun t => t.company == c && decide ((0 : ℚ) < t.credit))

/-- Python float `%` (`a - b * floor(a / b)`). -/
def pyMod (a b : ℚ) : ℚ := a - b * ⌊a / b⌋

/-- Rule C as implemented: some positive credit with
`abs(c) % 10000 == 0 or abs(c) % 5000 == 0`. -/
def roundFlag (credits : List ℚ) : Bool :=
  credits.any (fun c =>
    decide ((0 : ℚ) < c) && (decide (pyMod |c| 10000 = 0) || decide (pyMod |c| 5000 = 0)))

/-- Rule B as implemented: the loop with early `break` is `any`. -/
def mismatchFlag (descs : List String) : Bool :=
  descs.any (fun d =>
    !(detect_other_industries (some d)).isEmpty &&
      !(detect_other_industries (some d)).contains BASE_INDUSTRY)

/-- Rule evaluation: `(rule_ids, flags)` in the fixed order
concentration, mismatch, round-amount. -/
def ruleEval (pct : ℚ) (txns : List Txn) : List String × List String :=
  ((if (30 : ℚ) ≤ pct then ["INCOME_CONCENTRATION"] else []) ++
     (if mismatchFlag (txns.map Txn.desc) then ["INDUSTRY_MISMATCH"] else []) ++
     (if roundFlag (txns.map Txn.credit) then ["ROUND_AMOUNT_PATTERN"] else []),
   (if (30 : ℚ) ≤ pct then ["Income heavily depends on one company (>30%)"] else []) ++
     (if mismatchFlag (txns.map Txn.desc) then ["Source looks unrelated to your business industry"] else []) ++
     (if roundFlag (txns.map Txn.credit) then ["Many inflows are very round numbers (possible manual adjustments)"] else []))

/-- The risk classifier: 0 flags Safe, 1 Medium, more High. -/
def riskOf (flags : List String) : String :=
  if flags.isEmpty then "Safe" else if flags.length == 1 then "Medium" else "High"

/-- One ranked output record (rank is positional in the list). -/
structure Record where
  company : String
  credit : ℚ
  pct : ℚ
  risk : String
  reason : String
  actionLevel : String
  actionsText : String
deriving DecidableEq

/-- The per-company assessment built in the `top5.iterrows()` loop. -/
def recordFor (data : List Txn) (cg : String × ℚ) : Record :=
  let pct := pctOf data cg.2
  let rf := ruleEval pct (txnsOf data cg.1)
  let risk := riskOf rf.2
  let pa := build_policy_actions risk rf.1
  { company := cg.1
    credit := cg.2
    pct := pct
    risk := risk
    reason := if rf.2.isEmpty then "No unusual patterns detected" else joinSemi rf.2
    actionLevel := pa.1
    actionsText := pa.2 }

/-- The ordered ranked output; empty when `total_in <= 0` (the early
return). -/
def rankedRecords (data : List Txn) : List Record :=
  if totalIn data ≤ 0 then [] else (top5 data).map (recordFor data)

/-- The whole run over the merged tables: KPI totals plus ranked records. -/
def runPipeline (tables : List (List Txn)) : (ℚ × ℚ × ℚ) × List Record :=
  (grandTotals tables.flatten, rankedRecords tables.flatten)

/-! ### Auxiliary definitions used by the statements -/

/-- Cleaned money text that is neither parenthesized nor carries a minus
sign anywhere; such cells can never normalize to a negative amount. -/
def moneyNonNegShape (s : String) : Prop :=
  '-' ∉ cleanMoney s ∧
    ¬((cleanMoney s).head? = some '(' ∧ (cleanMoney s).getLast? = some ')')

instance (s : String) : Decidable (moneyNonNegShape s) :=
  inferInstanceAs (Decidable (_ ∧ _))

/-- The order actually realized by the ranking: strictly larger summed
credit first, and on equal sums the lexicographically smaller company
name first. -/
def rankOrder (a b : String × ℚ) : Prop :=
  b.2 < a.2 ∨ (a.2 = b.2 ∧ a.1 < b.1)

/-- Merged input realizing share percentages 33.35, 33.35 and 33.3, whose
one-decimal roundings sum to 100.1. -/
def dataRoundCx : List Txn :=
  [⟨"A", 3335, 0, "a"⟩, ⟨"B", 3335, 0, "b"⟩, ⟨"C", 3330, 0, "c"⟩]

/-- Merged input with a negative stored credit (for instance from a
parenthesized cell), pushing a share percentage above 100. -/
def dataNegCx : List Txn :=
  [⟨"A", 100, 0, "a"⟩, ⟨"B", -50, 0, "b"⟩]

/-- Merged input where the companies "ZZ" and "AA" tie at 50: "ZZ" is seen
first during grouping but "AA" wins the last top-5 slot. -/
def dataTieCx : List Txn :=
  [⟨"P", 100, 0, "p"⟩, ⟨"Q", 100, 0, "q"⟩, ⟨"R", 100, 0, "r"⟩, ⟨"S", 100, 0, "s"⟩,
   ⟨"ZZ", 50, 0, "z"⟩, ⟨"AA", 50, 0, "aa"⟩]

/-- A raw row whose credit cell is a parenthesized amount. -/
def rowParenCx : RawRow := ⟨some "ACME TRADING", some "(500)", none⟩

/-- A raw row with an ordinary positive credit cell (witness input). -/
def rowPlain : RawRow := ⟨some "ACME CAFE", some "500", none⟩

/-- Witness input for the share-percentage invariants. -/
def dataShareW : List Txn := [⟨"ALPHA", 60, 0, "a"⟩, ⟨"BETA", 40, 0, "b"⟩]

/-- Witness tables for table-order independence. -/
def txnA : Txn := ⟨"ALPHA", 100, 5, "alpha fresh bakery"⟩

def txnB : Txn := ⟨"BETA", 20000, 0, "beta steel delivery"⟩

/-! ## Lemmas about the monetary normalizer -/

theorem mem_of_mem_trimWs {c : Char} {l : List Char} (h : c ∈ trimWs l) : c ∈ l := by
  unfold trimWs at h
  rw [List.mem_reverse] at h
  have h1 := (List.dropWhile_sublist pyWs).subset h
  rw [List.mem_reverse] at h1
  exact (List.dropWhile_sublist pyWs).subset h1

theorem parseUnsigned_nonneg {l : List Char} {q : ℚ} (h : parseUnsigned l = some q) :
    0 ≤ q := by
  simp only [parseUnsigned] at h
  split at h
  · split at h
    · exact absurd h (by simp)
    · split at h
      · rw [Option.some.injEq] at h
        rw [← h]
        positivity
      · exact absurd h (by simp)
  · split at h
    · exact absurd h (by simp)
    · split at h
      · rw [Option.some.injEq] at h
        rw [← h]
        positivity
      · exact absurd h (by simp)

theorem splitSign_not_neg {l : List Char} (h : '-' ∉ l) : (splitSign l).1 = false := by
  cases l with
  | nil => rfl
  | cons c t =>
    have hc : c ≠ '-' := fun hc => h (hc ▸ List.mem_cons_self c t)
    by_cases h1 : c = '+' <;> simp [splitSign, h1, hc]

theorem parseFloatChars_nonneg {l0 : List Char} {q : ℚ} (hm : '-' ∉ l0)
    (h : parseFloatChars l0 = some q) : 0 ≤ q := by
  have hml : '-' ∉ trimWs l0 := fun hx => hm (mem_of_mem_trimWs hx)
  have hsg : (splitSign (trimWs l0)).1 = false := splitSign_not_neg hml
  simp only [parseFloatChars, hsg, Bool.false_eq_true, if_false] at h
  split at h
  · exact absurd h (by simp)
  · rename_i m heq
    split at h
    · rw [Option.some.injEq] at h
      rw [← h]
      exact parseUnsigned_nonneg heq
    · split at h
      · exact absurd h (by simp)
      · rw [Option.some.injEq] at h
        rw [← h]
        exact mul_nonneg (parseUnsigned_nonneg heq) (zpow_nonneg (by norm_num) _)

theorem moneyfy_nonneg {s : String} (h1 : '-' ∉ cleanMoney s)
    (h2 : ¬((cleanMoney s).head? = some '(' ∧ (cleanMoney s).getLast? = some ')')) :
    0 ≤ moneyfy (some s) := by
  have hc : ((cleanMoney s).head? == some '(' && (cleanMoney s).getLast? == some ')') = false := by
    rw [Bool.eq_false_iff]
    intro hb
    rw [Bool.and_eq_true, beq_iff_eq, beq_iff_eq] at hb
    exact h2 hb
  simp only [moneyfy, hc, Bool.false_eq_true, if_false]
  split
  · exact le_refl 0
  · split
    · rename_i q' heq
      exact parseFloatChars_nonneg h1 heq
    · exact le_refl 0

/-! ## C7: the monetary normalizer equations -/

/-- C7 (confirmed): the normalizer is total by construction and satisfies the
five test equations of the spec. -/
theorem c7_moneyfy_equations :
    moneyfy (some "1,234.50") = 1234.5 ∧ moneyfy (some "(500)") = -500 ∧
    moneyfy (some "") = 0 ∧ moneyfy none = 0 ∧ moneyfy (some "abc") = 0 :=
  ⟨by with_unfolding_all rfl, by with_unfolding_all rfl, by with_unfolding_all rfl, rfl,
   by with_unfolding_all rfl⟩

/-! ## C1: the counterparty extractor equations -/

/-- C1 counterexample: on the spec's first test input the regex match starts
at position 0 because the character class includes spaces, so the extracted
identity keeps the leading "PAYMENT FROM" and differs from the spec's
expected value. -/
theorem c1_counterexample :
    get_counterparty (some "PAYMENT FROM ACME TRADING SDN BHD REF123") =
      "PAYMENT FROM ACME TRADING SDN BHD" ∧
    "PAYMENT FROM ACME TRADING SDN BHD" ≠ "ACME TRADING SDN BHD" :=
  ⟨by with_unfolding_all rfl, by decide⟩

/-- C1 (amended): the extractor's actual outputs on the four spec test
inputs; only the first differs from the claim (the greedy suffix match
extends left through "PAYMENT FROM"). -/
theorem c1_amended :
    get_counterparty (some "PAYMENT FROM ACME TRADING SDN BHD REF123") =
      "PAYMENT FROM ACME TRADING SDN BHD" ∧
    get_counterparty (some "xyz random note 123 abc") = "XYZ RANDOM NOTE 123" ∧
    get_counterparty none = "UNKNOWN" ∧
    get_counterparty (some "!!!") = "UNKNOWN" :=
  ⟨by with_unfolding_all rfl, by with_unfolding_all rfl, rfl, by with_unfolding_all rfl⟩

/-! ## C3: stored credit and debit signs -/

/-- C3 counterexample: the raw row whose credit cell is "(500)" derives a
transaction whose stored credit is negative, refuting the claimed
invariant. -/
theorem c3_counterexample :
    (txnOfRow rowParenCx).credit = -500 ∧ ¬(0 ≤ (txnOfRow rowParenCx).credit) :=
  ⟨by with_unfolding_all rfl, by with_unfolding_all decide⟩

/-- C3 (amended): stored credit and debit are exactly the normalizer's
output for the corresponding cell; they are nonnegative whenever the cell is
missing or its cleaned text carries no minus sign and is not parenthesized,
but a parenthesized or minus-signed cell is stored negative. -/
theorem c3_amended (r : RawRow) :
    (txnOfRow r).credit = moneyfy r.creditCell ∧
    (txnOfRow r).debit = moneyfy r.debitCell ∧
    (∀ s, r.creditCell = some s → moneyNonNegShape s → 0 ≤ (txnOfRow r).credit) ∧
    (∀ s, r.debitCell = some s → moneyNonNegShape s → 0 ≤ (txnOfRow r).debit) ∧
    (r.creditCell = none → (txnOfRow r).credit = 0) ∧
    (r.debitCell = none → (txnOfRow r).debit = 0) := by
  refine ⟨rfl, rfl, ?_, ?_, ?_, ?_⟩
  · intro s hs hshape
    show 0 ≤ moneyfy r.creditCell
    rw [hs]
    exact moneyfy_nonneg hshape.1 hshape.2
  · intro s hs hshape
    show 0 ≤ moneyfy r.debitCell
    rw [hs]
    exact moneyfy_nonneg hshape.1 hshape.2
  · intro hs
    show moneyfy r.creditCell = 0
    rw [hs]
    rfl
  · intro hs
    show moneyfy r.debitCell = 0
    rw [hs]
    rfl

/-- C3 witness: a concrete plain-credit row satisfying the amended
hypotheses. -/
theorem c3_amended_witness :
    rowPlain.creditCell = some "500" ∧ moneyNonNegShape "500" ∧
    0 ≤ (txnOfRow rowPlain).credit :=
  ⟨rfl, by with_unfolding_all decide, (c3_amended rowPlain).2.2.1 "500" rfl
    (by with_unfolding_all decide)⟩

/-! ## C8: the industry-mismatch rule -/

/-- C8 (confirmed): the mismatch rule fires exactly when some narrative
classifies into at least one industry none of which is the base industry;
narratives with no industry match never trigger it. -/
theorem c8_mismatch_iff (descs : List String) :
    mismatchFlag descs = true ↔
      ∃ d ∈ descs, detect_other_industries (some d) ≠ [] ∧
        BASE_INDUSTRY ∉ detect_other_industries (some d) := by
  unfold mismatchFlag
  rw [List.any_eq_true]
  apply exists_congr
  intro d
  apply and_congr_right
  intro _
  rw [Bool.and_eq_true, Bool.not_eq_true', Bool.not_eq_true']
  constructor
  · rintro ⟨he, hc⟩
    constructor
    · intro hnil
      rw [hnil] at he
      exact absurd he (by simp)
    · intro hmem
      have hcc : (detect_other_industries (some d)).contains BASE_INDUSTRY = true :=
        List.elem_iff.mpr hmem
      rw [hcc] at hc
      exact absurd hc (by simp)
  · rintro ⟨hne, hnm⟩
    constructor
    · cases hx : detect_other_industries (some d) with
      | nil => exact absurd hx hne
      | cons a t => rfl
    · rw [Bool.eq_false_iff]
      intro hc
      exact hnm (List.elem_iff.mp hc)

/-! ## C10: redundancy of the 10000 divisor -/

theorem pyMod_eq_zero_iff {a n : ℚ} (hn : 0 < n) :
    pyMod a n = 0 ↔ ∃ k : ℤ, a = n * k := by
  unfold pyMod
  constructor
  · intro h
    exact ⟨⌊a / n⌋, by linarith [sub_eq_zero.mp h]⟩
  · rintro ⟨k, rfl⟩
    have hd : (n * k) / n = (k : ℚ) := by
      field_simp
    rw [hd, Int.floor_intCast, sub_self]

/-- C10 (confirmed): the implemented round-amount check, with both the 10000
and the 5000 divisor, is equivalent to "some positive credit is an exact
multiple of 5000"; the 10000 divisor is redundant. -/
theorem c10_round_equiv (credits : List ℚ) :
    roundFlag credits = true ↔ ∃ c ∈ credits, 0 < c ∧ ∃ k : ℤ, c = 5000 * k := by
  unfold roundFlag
  rw [List.any_eq_true]
  apply exists_congr
  intro c
  apply and_congr_right
  intro _
  rw [Bool.and_eq_true, Bool.or_eq_true, decide_eq_true_iff, decide_eq_true_iff,
    decide_eq_true_iff]
  constructor
  · rintro ⟨h0, hd⟩
    refine ⟨h0, ?_⟩
    rw [abs_of_pos h0] at hd
    rcases hd with hd | hd
    · obtain ⟨k, hk⟩ := (pyMod_eq_zero_iff (by norm_num)).mp hd
      refine ⟨2 * k, ?_⟩
      rw [hk]
      push_cast
      ring
    · exact (pyMod_eq_zero_iff (by norm_num)).mp hd
  · rintro ⟨h0, k, hk⟩
    refine ⟨h0, Or.inr ?_⟩
    rw [abs_of_pos h0]
    exact (pyMod_eq_zero_iff (by norm_num)).mpr ⟨k, hk⟩

/-! ## Policy-loop lemmas -/

theorem loop_acts_extend (items : List PolicyItem) :
    ∀ (lvl : String) (acts seen : List String),
      ∃ rest, (policyLoop items lvl acts seen).2 = acts ++ rest := by
  induction items with
  | nil =>
    intro lvl acts seen
    exact ⟨[], (List.append_nil acts).symm⟩
  | cons it rest ih =>
    intro lvl acts seen
    rw [policyLoop]
    by_cases hs : seen.contains it.action = true
    · rw [if_pos hs, if_pos hs]
      exact ih _ acts _
    · rw [if_neg hs, if_neg hs]
      obtain ⟨r, hr⟩ := ih (if priorityOf lvl < priorityOf it.level then it.level else lvl)
        (acts ++ [it.action]) (seen ++ [it.action])
      exact ⟨[it.action] ++ r, by rw [hr, List.append_assoc]⟩

theorem loop_acts_head (it : PolicyItem) (rest : List PolicyItem) (lvl : String) :
    ∃ tail, (policyLoop (it :: rest) lvl [] []).2 = it.action :: tail := by
  have hstep : policyLoop (it :: rest) lvl [] [] =
      policyLoop rest (if priorityOf lvl < priorityOf it.level then it.level else lvl)
        [it.action] [it.action] := rfl
  rw [hstep]
  obtain ⟨r, hr⟩ := loop_acts_extend rest
    (if priorityOf lvl < priorityOf it.level then it.level else lvl) [it.action] [it.action]
  exact ⟨r, hr⟩

theorem loop_level_cases (items : List PolicyItem) :
    ∀ (lvl : String) (acts seen : List String),
      (policyLoop items lvl acts seen).1 = lvl ∨
        ∃ it ∈ items, (policyLoop items lvl acts seen).1 = it.level := by
  induction items with
  | nil =>
    intro lvl acts seen
    exact Or.inl rfl
  | cons it rest ih =>
    intro lvl acts seen
    rw [policyLoop]
    by_cases hp : priorityOf lvl < priorityOf it.level
    · rw [if_pos hp]
      rcases ih it.level
        (if seen.contains it.action then acts else acts ++ [it.action])
        (if seen.contains it.action then seen else seen ++ [it.action]) with h | ⟨x, hx, h⟩
      · exact Or.inr ⟨it, List.mem_cons_self it rest, h⟩
      · exact Or.inr ⟨x, List.mem_cons_of_mem it hx, h⟩
    · rw [if_neg hp]
      rcases ih lvl
        (if seen.contains it.action then acts else acts ++ [it.action])
        (if seen.contains it.action then seen else seen ++ [it.action]) with h | ⟨x, hx, h⟩
      · exact Or.inl h
      · exact Or.inr ⟨x, List.mem_cons_of_mem it hx, h⟩

theorem loop_level_ge (items : List PolicyItem) :
    ∀ (lvl : String) (acts seen : List String),
      priorityOf lvl ≤ priorityOf (policyLoop items lvl acts seen).1 ∧
        ∀ it ∈ items, priorityOf it.level ≤ priorityOf (policyLoop items lvl acts seen).1 := by
  induction items with
  | nil =>
    intro lvl acts seen
    exact ⟨Nat.le_refl _, fun it hit => absurd hit (List.not_mem_nil it)⟩
  | cons it rest ih =>
    intro lvl acts seen
    rw [policyLoop]
    have h1 : priorityOf lvl ≤
        priorityOf (if priorityOf lvl < priorityOf it.level then it.level else lvl) := by
      by_cases hp : priorityOf lvl < priorityOf it.level
      · rw [if_pos hp]
        exact Nat.le_of_lt hp
      · rw [if_neg hp]
    have h2 : priorityOf it.level ≤
        priorityOf (if priorityOf lvl < priorityOf it.level then it.level else lvl) := by
      by_cases hp : priorityOf lvl < priorityOf it.level
      · rw [if_pos hp]
      · rw [if_neg hp]
        exact Nat.le_of_not_lt hp
    obtain ⟨ha, hb⟩ := ih (if priorityOf lvl < priorityOf it.level then it.level else lvl)
      (if seen.contains it.action then acts else acts ++ [it.action])
      (if seen.contains it.action then seen else seen ++ [it.action])
    refine ⟨Nat.le_trans h1 ha, ?_⟩
    intro x hx
    rcases List.mem_cons.mp hx with rfl | hx
    · exact Nat.le_trans h2 ha
    · exact hb x hx

set_option maxRecDepth 8192 in
theorem mem_policyItems {risk : String} {rids : List String} :
    ∀ it ∈ policyItems risk rids, it.level ∈ sixLevels ∧ it.action.length ≠ 0 := by
  intro it hmem
  rw [policyItems, List.mem_append] at hmem
  rcases hmem with h | h
  · rw [List.mem_filterMap] at h
    obtain ⟨rid, _, hlk⟩ := h
    unfold lookupPolicy at hlk
    rw [Option.map_eq_some'] at hlk
    obtain ⟨p, hfind, hp2⟩ := hlk
    have hp := List.mem_of_find?_eq_some hfind
    have hall : ∀ p ∈ POLICY_MATRIX, p.2.level ∈ sixLevels ∧ p.2.action.length ≠ 0 := by decide
    rw [← hp2]
    exact hall p hp
  · rw [List.mem_singleton] at h
    subst h
    split
    · exact ⟨by decide, by decide⟩
    · split
      · exact ⟨by decide, by decide⟩
      · exact ⟨by decide, by decide⟩

theorem joinSpace_ne_empty (a : String) (l : List String) (h : a.length ≠ 0) :
    joinSpace (a :: l) ≠ "" := by
  cases l with
  | nil =>
    intro he
    rw [joinSpace] at he
    exact h (by rw [he]; rfl)
  | cons b rest =>
    intro he
    rw [joinSpace] at he
    have hlen := congrArg String.length he
    rw [String.length_append, String.length_append] at hlen
    have : a.length + 1 + (joinSpace (b :: rest)).length = 0 := hlen
    omega

/-! ## C6: High risk forces the Escalate action level -/

theorem six_level_five : ∀ s ∈ sixLevels, 5 ≤ priorityOf s → s = "Escalate" := by decide

set_option maxRecDepth 8192 in
/-- C6 (confirmed): whatever the fired rule ids are, risk "High" always
yields action level "Escalate"; on the concentration and round-amount rule
set the deduplicated actions list is exactly the three distinct texts
(concentration, round-amount, escalation) in first-seen order. -/
theorem c6_policy_escalate :
    (∀ rids : List String, (build_policy_actions "High" rids).1 = "Escalate") ∧
    policyActionsList "High" ["INCOME_CONCENTRATION", "ROUND_AMOUNT_PATTERN"] =
      [ITEM_CONCENTRATION.action, ITEM_ROUND.action, ITEM_ESCALATE.action] ∧
    ITEM_CONCENTRATION.action ≠ ITEM_ROUND.action ∧
    ITEM_CONCENTRATION.action ≠ ITEM_ESCALATE.action ∧
    ITEM_ROUND.action ≠ ITEM_ESCALATE.action := by
  refine ⟨?_, by decide, by decide, by decide, by decide⟩
  intro rids
  have hesc : ITEM_ESCALATE ∈ policyItems "High" rids := by
    rw [policyItems, List.mem_append]
    exact Or.inr (by rw [if_pos (by decide)]; exact List.mem_singleton_self _)
  have hge := (loop_level_ge (policyItems "High" rids) "Standard" [] []).2 ITEM_ESCALATE hesc
  have h5 : priorityOf ITEM_ESCALATE.level = 5 := rfl
  rw [h5] at hge
  show (policyLoop (policyItems "High" rids) "Standard" [] []).1 = "Escalate"
  rcases loop_level_cases (policyItems "High" rids) "Standard" [] [] with h | ⟨it, hmem, h⟩
  · rw [h] at hge
    exact absurd hge (by decide)
  · rw [h] at hge ⊢
    exact six_level_five it.level (mem_policyItems it hmem).1 hge

/-! ## C9: robustness of the policy mapper -/

theorem filterMap_filter_isSome {α β : Type} (f : α → Option β) (l : List α) :
    (l.filter (fun a => (f a).isSome)).filterMap f = l.filterMap f := by
  induction l with
  | nil => rfl
  | cons a t ih =>
    cases hfa : f a with
    | none => simp [List.filter_cons, List.filterMap_cons, hfa, ih]
    | some b => simp [List.filter_cons, List.filterMap_cons, hfa, ih]

/-- C9 (confirmed): the policy mapper silently drops rule ids outside the
policy matrix, always appends exactly one risk-based entry, and always
returns a non-empty actions text with an action level among the six known
levels. -/
theorem c9_policy_total (risk : String) (rids : List String) :
    build_policy_actions risk (rids.filter (fun r => (lookupPolicy r).isSome)) =
      build_policy_actions risk rids ∧
    policyItems risk rids = rids.filterMap lookupPolicy ++
      [if risk == "High" then ITEM_ESCALATE
       else if risk == "Medium" then ITEM_MONITOR else ITEM_STANDARD] ∧
    (build_policy_actions risk rids).2 ≠ "" ∧
    (build_policy_actions risk rids).1 ∈ sixLevels := by
  refine ⟨?_, rfl, ?_, ?_⟩
  · unfold build_policy_actions policyActionsList policyItems
    rw [filterMap_filter_isSome]
  · obtain ⟨it, rest, hit⟩ : ∃ it rest, policyItems risk rids = it :: rest := by
      rw [policyItems]
      cases h : rids.filterMap lookupPolicy with
      | nil => exact ⟨_, _, rfl⟩
      | cons a t => exact ⟨a, _, rfl⟩
    show joinSpace (policyLoop (policyItems risk rids) "Standard" [] []).2 ≠ ""
    rw [hit]
    obtain ⟨tail, htail⟩ := loop_acts_head it rest "Standard"
    rw [htail]
    have hlen : it.action.length ≠ 0 :=
      (mem_policyItems it (hit ▸ List.mem_cons_self it rest)).2
    exact joinSpace_ne_empty _ _ hlen
  · show (policyLoop (policyItems risk rids) "Standard" [] []).1 ∈ sixLevels
    rcases loop_level_cases (policyItems risk rids) "Standard" [] [] with h | ⟨it, hmem, h⟩
    · rw [h]
      decide
    · rw [h]
      exact (mem_policyItems it hmem).1

/-! ## Sortedness of the ranking (C4) -/

theorem companiesSorted_sorted (data : List Txn) :
    List.Sorted (· ≤ ·) (companiesSorted data) :=
  List.sorted_insertionSort _ _

theorem companiesSorted_nodup (data : List Txn) : (companiesSorted data).Nodup :=
  ((List.perm_insertionSort _ _).nodup_iff).mpr (List.nodup_dedup _)

theorem pairwise_lt_of_sorted_nodup {l : List String}
    (hs : List.Sorted (· ≤ ·) l) (hn : l.Nodup) : List.Pairwise (· < ·) l := by
  induction l with
  | nil => exact List.Pairwise.nil
  | cons a t ih =>
    refine List.Pairwise.cons ?_ (ih (List.Pairwise.of_cons hs) (List.Pairwise.of_cons hn))
    intro b hb
    exact lt_of_le_of_ne (List.rel_of_pairwise_cons hs hb) (List.rel_of_pairwise_cons hn hb)

theorem grouped_keys_pairwise (data : List Txn) :
    List.Pairwise (fun a b => a.1 < b.1) (grouped data) := by
  rw [grouped, List.pairwise_map]
  exact pairwise_lt_of_sorted_nodup (companiesSorted_sorted data) (companiesSorted_nodup data)

theorem pairwise_rankOrder_orderedInsert (x : String × ℚ) :
    ∀ (l : List (String × ℚ)), List.Pairwise rankOrder l → (∀ y ∈ l, x.1 < y.1) →
      List.Pairwise rankOrder (List.orderedInsert byCreditDesc x l) := by
  intro l
  induction l with
  | nil =>
    intro _ _
    exact List.Pairwise.cons (fun z hz => absurd hz (List.not_mem_nil z)) List.Pairwise.nil
  | cons y ys ih =>
    intro hp hk
    rw [List.orderedInsert]
    by_cases hr : byCreditDesc x y
    · rw [if_pos hr]
      refine List.Pairwise.cons ?_ hp
      intro z hz
      rcases List.mem_cons.mp hz with rfl | hz
      · rcases lt_or_eq_of_le hr with hlt | heq
        · exact Or.inl hlt
        · exact Or.inr ⟨heq.symm, hk z (List.mem_cons_self _ _)⟩
      · have hyz := List.rel_of_pairwise_cons hp hz
        have hzy : z.2 ≤ y.2 := by
          rcases hyz with h | ⟨h, _⟩
          · exact le_of_lt h
          · exact le_of_eq h.symm
        rcases lt_or_eq_of_le (le_trans hzy hr) with hlt | heq
        · exact Or.inl hlt
        · exact Or.inr ⟨heq.symm, hk z (List.mem_cons_of_mem _ hz)⟩
    · rw [if_neg hr]
      have hxy : x.2 < y.2 := lt_of_not_le hr
      refine List.Pairwise.cons ?_
        (ih (List.Pairwise.of_cons hp) (fun z hz => hk z (List.mem_cons_of_mem _ hz)))
      intro z hz
      rcases (List.mem_orderedInsert _).mp hz with rfl | hz
      · exact Or.inl hxy
      · exact List.rel_of_pairwise_cons hp hz

theorem pairwise_rankOrder_sort (l : List (String × ℚ))
    (h : List.Pairwise (fun a b => a.1 < b.1) l) :
    List.Pairwise rankOrder (List.insertionSort byCreditDesc l) := by
  induction l with
  | nil => exact List.Pairwise.nil
  | cons x xs ih =>
    simp only [List.insertionSort]
    refine pairwise_rankOrder_orderedInsert x _ (ih (List.Pairwise.of_cons h)) ?_
    intro y hy
    exact List.rel_of_pairwise_cons h ((List.perm_insertionSort byCreditDesc xs).mem_iff.mp hy)

/-- C4 counterexample: in `dataTieCx` the companies "ZZ" and "AA" tie at 50
with "ZZ" seen first in the merged set, yet the top-5 selection keeps "AA"
and drops "ZZ" (pandas sorts group keys, and `nlargest` keeps the earlier
entry of the sorted series on ties). -/
theorem c4_counterexample :
    dataTieCx.map Txn.company = ["P", "Q", "R", "S", "ZZ", "AA"] ∧
    groupSum dataTieCx "ZZ" = groupSum dataTieCx "AA" ∧
    0 < totalIn dataTieCx ∧
    (top5 dataTieCx).map Prod.fst = ["P", "Q", "R", "S", "AA"] ∧
    "ZZ" ∉ (top5 dataTieCx).map Prod.fst := by
  refine ⟨rfl, by with_unfolding_all rfl, by with_unfolding_all decide,
    by with_unfolding_all rfl, by with_unfolding_all decide⟩

/-- C4 (amended): ties among equal summed credits are broken in favour of
the lexicographically smaller company name, not the first-seen group: the
ranked top-5 list is always ordered by strictly descending credit with
equal-credit runs ascending by company name. -/
theorem c4_amended (data : List Txn) : List.Pairwise rankOrder (top5 data) := by
  rw [top5]
  exact List.Pairwise.sublist (List.take_sublist 5 _)
    (pairwise_rankOrder_sort _ (grouped_keys_pairwise data))

/-! ## Order-independence of the pipeline (C5) -/

theorem perm_any {α : Type} {l₁ l₂ : List α} (h : l₁.Perm l₂) (p : α → Bool) :
    l₁.any p = l₂.any p := by
  have hiff : l₁.any p = true ↔ l₂.any p = true := by
    rw [List.any_eq_true, List.any_eq_true]
    constructor
    · rintro ⟨x, hx, hp⟩
      exact ⟨x, h.mem_iff.mp hx, hp⟩
    · rintro ⟨x, hx, hp⟩
      exact ⟨x, h.mem_iff.mpr hx, hp⟩
  cases hb1 : l₁.any p <;> cases hb2 : l₂.any p <;> simp_all

theorem totalIn_perm {d₁ d₂ : List Txn} (h : d₁.Perm d₂) : totalIn d₁ = totalIn d₂ :=
  (h.map Txn.credit).sum_eq

theorem totalOut_perm {d₁ d₂ : List Txn} (h : d₁.Perm d₂) : totalOut d₁ = totalOut d₂ :=
  (h.map Txn.debit).sum_eq

theorem companiesSorted_perm {d₁ d₂ : List Txn} (h : d₁.Perm d₂) :
    companiesSorted d₁ = companiesSorted d₂ := by
  have hp : (companiesSorted d₁).Perm (companiesSorted d₂) :=
    ((List.perm_insertionSort _ _).trans (((h.filter _).map Txn.company).dedup)).trans
      (List.perm_insertionSort _ _).symm
  exact List.eq_of_perm_of_sorted hp (List.sorted_insertionSort _ _)
    (List.sorted_insertionSort _ _)

theorem groupSum_perm {d₁ d₂ : List Txn} (h : d₁.Perm d₂) (c : String) :
    groupSum d₁ c = groupSum d₂ c :=
  (((h.filter _).filter _).map Txn.credit).sum_eq

theorem grouped_perm {d₁ d₂ : List Txn} (h : d₁.Perm d₂) : grouped d₁ = grouped d₂ := by
  rw [grouped, grouped, companiesSorted_perm h]
  exact List.map_congr_left (fun c _ => by rw [groupSum_perm h])

theorem top5_perm {d₁ d₂ : List Txn} (h : d₁.Perm d₂) : top5 d₁ = top5 d₂ := by
  rw [top5, top5, grouped_perm h]

theorem ruleEval_perm {d₁ d₂ : List Txn} (h : d₁.Perm d₂) (pct : ℚ) (c : String) :
    ruleEval pct (txnsOf d₁ c) = ruleEval pct (txnsOf d₂ c) := by
  have hperm : (txnsOf d₁ c).Perm (txnsOf d₂ c) := h.filter _
  have hm : mismatchFlag ((txnsOf d₁ c).map Txn.desc) =
      mismatchFlag ((txnsOf d₂ c).map Txn.desc) := perm_any (hperm.map Txn.desc) _
  have hr : roundFlag ((txnsOf d₁ c).map Txn.credit) =
      roundFlag ((txnsOf d₂ c).map Txn.credit) := perm_any (hperm.map Txn.credit) _
  rw [ruleEval, ruleEval, hm, hr]

theorem recordFor_perm {d₁ d₂ : List Txn} (h : d₁.Perm d₂) (cg : String × ℚ) :
    recordFor d₁ cg = recordFor d₂ cg := by
  have h1 : pctOf d₁ cg.2 = pctOf d₂ cg.2 := by rw [pctOf, pctOf, totalIn_perm h]
  have h2 : ∀ p : ℚ, ruleEval p (txnsOf d₁ cg.1) = ruleEval p (txnsOf d₂ cg.1) :=
    fun p => ruleEval_perm h p cg.1
  simp only [recordFor, h1, h2]

theorem rankedRecords_perm {d₁ d₂ : List Txn} (h : d₁.Perm d₂) :
    rankedRecords d₁ = rankedRecords d₂ := by
  rw [rankedRecords, rankedRecords, totalIn_perm h, top5_perm h]
  split
  · rfl
  · exact List.map_congr_left (fun cg _ => recordFor_perm h cg)

/-- C5 (confirmed): presenting the same input tables in any other order
yields identical grand totals and an identical ordered ranked-record list
(over exact rational arithmetic). -/
theorem c5_order_independent (t₁ t₂ : List (List Txn)) (h : t₁.Perm t₂) :
    runPipeline t₁ = runPipeline t₂ := by
  have hd : t₁.flatten.Perm t₂.flatten := h.flatten
  rw [runPipeline, runPipeline, grandTotals, grandTotals, totalIn_perm hd, totalOut_perm hd,
    rankedRecords_perm hd]

/-- C5 witness: two concrete one-row tables swapped. -/
theorem c5_witness :
    ([[txnA], [txnB]] : List (List Txn)).Perm [[txnB], [txnA]] ∧
    runPipeline [[txnA], [txnB]] = runPipeline [[txnB], [txnA]] :=
  ⟨List.Perm.swap [txnB] [txnA] [],
   c5_order_independent _ _ (List.Perm.swap [txnB] [txnA] [])⟩

/-! ## Rounding bounds (C2) -/

theorem roundHalfEven_le (q : ℚ) : (roundHalfEven q : ℚ) ≤ q + 1 / 2 := by
  rw [roundHalfEven]
  have hfl := Int.floor_le q
  split_ifs with h1 h2 h3
  · linarith
  · push_cast
    linarith
  · linarith
  · push_cast
    have heq : q - ⌊q⌋ = 1 / 2 := le_antisymm (not_lt.mp h2) (not_lt.mp h1)
    linarith

theorem le_roundHalfEven (q : ℚ) : q - 1 / 2 ≤ (roundHalfEven q : ℚ) := by
  rw [roundHalfEven]
  have hfl := Int.floor_le q
  have hfu := Int.lt_floor_add_one q
  split_ifs with h1 h2 h3
  · linarith
  · push_cast
    linarith
  · have heq : q - ⌊q⌋ = 1 / 2 := le_antisymm (not_lt.mp h2) (not_lt.mp h1)
    linarith
  · push_cast
    linarith

theorem round1_le (x : ℚ) : round1 x ≤ x + 1 / 20 := by
  rw [round1]
  have h := roundHalfEven_le (x * 10)
  linarith

theorem round1_nonneg {x : ℚ} (h : 0 ≤ x) : 0 ≤ round1 x := by
  rw [round1]
  have h1 := le_roundHalfEven (x * 10)
  have h2 : (-1 : ℚ) < (roundHalfEven (x * 10) : ℚ) := by linarith
  have h3 : (-1 : ℤ) < roundHalfEven (x * 10) := by exact_mod_cast h2
  have h4 : (0 : ℚ) ≤ (roundHalfEven (x * 10) : ℚ) := by
    have : (0 : ℤ) ≤ roundHalfEven (x * 10) := by omega
    exact_mod_cast this
  linarith

theorem round1_le_100 {x : ℚ} (h : x ≤ 100) : round1 x ≤ 100 := by
  rw [round1]
  have h1 := roundHalfEven_le (x * 10)
  have h2 : (roundHalfEven (x * 10) : ℚ) < 1001 := by linarith
  have h3 : roundHalfEven (x * 10) < 1001 := by exact_mod_cast h2
  have h4 : (roundHalfEven (x * 10) : ℚ) ≤ 1000 := by
    have : roundHalfEven (x * 10) ≤ 1000 := by omega
    exact_mod_cast this
  linarith

/-! ## Partition bounds for group sums (C2) -/

theorem sum_map_add (keys : List String) (f g : String → ℚ) :
    (keys.map (fun c => f c + g c)).sum = (keys.map f).sum + (keys.map g).sum := by
  induction keys with
  | nil => simp
  | cons k ks ih =>
    rw [List.map_cons, List.map_cons, List.map_cons, List.sum_cons, List.sum_cons,
      List.sum_cons, ih]
    ring

theorem sum_ite_le (a : String) (v : ℚ) (hv : 0 ≤ v) :
    ∀ keys : List String, keys.Nodup →
      (keys.map (fun c => if a == c then v else 0)).sum ≤ v := by
  intro keys
  induction keys with
  | nil =>
    intro _
    simpa using hv
  | cons k ks ih =>
    intro hk
    rw [List.map_cons, List.sum_cons]
    by_cases hak : (a == k) = true
    · rw [if_pos hak]
      have ha : a = k := beq_iff_eq.mp hak
      have hknot : k ∉ ks := (List.nodup_cons.mp hk).1
      have hzero : (ks.map (fun c => if a == c then v else 0)).sum = 0 := by
        apply List.sum_eq_zero
        intro x hx
        rw [List.mem_map] at hx
        obtain ⟨c, hc, rfl⟩ := hx
        rw [if_neg ?_]
        intro hbeq
        exact hknot (ha ▸ beq_iff_eq.mp hbeq ▸ hc)
      rw [hzero]
      linarith
    · rw [if_neg hak, zero_add]
      exact ih (List.nodup_cons.mp hk).2

theorem sum_groupSums_le (rows : List Txn) :
    ∀ keys : List String, keys.Nodup → (∀ t ∈ rows, 0 ≤ t.credit) →
      (keys.map
        (fun c => ((rows.filter (fun t => t.company == c)).map Txn.credit).sum)).sum ≤
        (rows.map Txn.credit).sum := by
  induction rows with
  | nil =>
    intro keys _ _
    simp
  | cons t rest ih =>
    intro keys hk hnn
    have hsplit : ∀ c : String,
        (((t :: rest).filter (fun x => x.company == c)).map Txn.credit).sum =
          (if t.company == c then t.credit else 0) +
            ((rest.filter (fun x => x.company == c)).map Txn.credit).sum := by
      intro c
      rw [List.filter_cons]
      by_cases hc : (t.company == c) = true
      · rw [if_pos hc, if_pos hc, List.map_cons, List.sum_cons]
      · rw [if_neg hc, if_neg hc, zero_add]
    rw [List.map_congr_left (fun c _ => hsplit c), sum_map_add, List.map_cons, List.sum_cons]
    have h1 : (keys.map (fun c => if t.company == c then t.credit else 0)).sum ≤ t.credit :=
      sum_ite_le t.company t.credit (hnn t (List.mem_cons_self t rest)) keys hk
    have h2 := ih keys hk (fun x hx => hnn x (List.mem_cons_of_mem t hx))
    linarith

theorem mem_creditRows_nonneg {data : List Txn} {t : Txn} (h : t ∈ creditRows data) :
    0 < t.credit := by
  rw [creditRows, List.mem_filter] at h
  exact of_decide_eq_true h.2

theorem groupSum_nonneg (data : List Txn) (c : String) : 0 ≤ groupSum data c := by
  apply List.sum_nonneg
  intro x hx
  rw [List.mem_map] at hx
  obtain ⟨t, ht, rfl⟩ := hx
  rw [List.mem_filter] at ht
  exact le_of_lt (mem_creditRows_nonneg ht.1)

theorem groupSum_le_totalIn (data : List Txn) (c : String)
    (hnn : ∀ t ∈ data, 0 ≤ t.credit) : groupSum data c ≤ totalIn data := by
  rw [groupSum, totalIn]
  apply List.Sublist.sum_le_sum
  · exact List.Sublist.map _ ((List.filter_sublist _).trans (List.filter_sublist _))
  · intro a ha
    rw [List.mem_map] at ha
    obtain ⟨t, ht, rfl⟩ := ha
    exact hnn t ht

theorem mem_top5 {data : List Txn} {cg : String × ℚ} (h : cg ∈ top5 data) :
    cg.1 ∈ companiesSorted data ∧ cg.2 = groupSum data cg.1 := by
  have h1 : cg ∈ grouped data :=
    (List.perm_insertionSort byCreditDesc (grouped data)).mem_iff.mp
      ((List.take_sublist 5 _).subset h)
  rw [grouped, List.mem_map] at h1
  obtain ⟨c, hc, heq⟩ := h1
  cases heq
  exact ⟨hc, rfl⟩

theorem top5_value_sum_le (data : List Txn) (hnn : ∀ t ∈ data, 0 ≤ t.credit) :
    ((top5 data).map Prod.snd).sum ≤ totalIn data := by
  have h1 : ((top5 data).map Prod.snd).sum ≤
      ((List.insertionSort byCreditDesc (grouped data)).map Prod.snd).sum := by
    apply List.Sublist.sum_le_sum (List.Sublist.map _ (List.take_sublist 5 _))
    intro a ha
    rw [List.mem_map] at ha
    obtain ⟨cg, hcg, rfl⟩ := ha
    have hmem : cg ∈ grouped data := (List.perm_insertionSort _ _).mem_iff.mp hcg
    rw [grouped, List.mem_map] at hmem
    obtain ⟨c, _, heq⟩ := hmem
    cases heq
    exact groupSum_nonneg data c
  have h2 : ((List.insertionSort byCreditDesc (grouped data)).map Prod.snd).sum =
      ((grouped data).map Prod.snd).sum := ((List.perm_insertionSort _ _).map _).sum_eq
  have h3 : ((grouped data).map Prod.snd).sum ≤ totalIn data := by
    rw [grouped, List.map_map]
    have h4 := sum_groupSums_le (creditRows data) (companiesSorted data)
      (companiesSorted_nodup data)
      (fun t ht => le_of_lt (mem_creditRows_nonneg ht))
    have h5 : ((creditRows data).map Txn.credit).sum ≤ (data.map Txn.credit).sum := by
      apply List.Sublist.sum_le_sum (List.Sublist.map _ (List.filter_sublist _))
      intro a ha
      rw [List.mem_map] at ha
      obtain ⟨t, ht, rfl⟩ := ha
      exact hnn t ht
    exact le_trans h4 h5
  exact le_trans h1 (le_trans (le_of_eq h2) h3)

theorem sum_round1_le (l : List ℚ) :
    (l.map round1).sum ≤ l.sum + l.length * (1 / 20) := by
  induction l with
  | nil => simp
  | cons x xs ih =>
    rw [List.map_cons, List.sum_cons, List.sum_cons, List.length_cons]
    have h := round1_le x
    push_cast
    linarith

theorem sum_map_pct (l : List (String × ℚ)) (T : ℚ) :
    (l.map (fun cg => cg.2 / T * 100)).sum = (l.map Prod.snd).sum / T * 100 := by
  induction l with
  | nil => simp
  | cons x xs ih =>
    rw [List.map_cons, List.map_cons, List.sum_cons, List.sum_cons, ih]
    ring

/-! ## C2: the share-percentage invariants -/

/-- C2 counterexample: with all-positive credits 3335/3335/3330 the rounded
shares are 33.4, 33.4 and 33.3, summing to 100.1 > 100; and a negative
stored credit (dataNegCx) pushes a single share to 200, outside [0,100]. -/
theorem c2_counterexample :
    (∀ t ∈ dataRoundCx, 0 ≤ t.credit) ∧ 0 < totalIn dataRoundCx ∧
    ((rankedRecords dataRoundCx).map Record.pct).sum = 1001 / 10 ∧
    ¬(((rankedRecords dataRoundCx).map Record.pct).sum ≤ 100) ∧
    0 < totalIn dataNegCx ∧
    (rankedRecords dataNegCx).map Record.pct = [200] ∧
    ¬(∀ r ∈ rankedRecords dataNegCx, r.pct ≤ 100) := by
  refine ⟨by with_unfolding_all decide, by with_unfolding_all decide,
    by with_unfolding_all rfl, by with_unfolding_all decide,
    by with_unfolding_all decide, by with_unfolding_all rfl,
    by with_unfolding_all decide⟩

/-- C2 (amended): when every stored credit is nonnegative and the grand
total credit is positive, each top-N share_pct lies in [0,100] and equals
100 x group credit / grand total rounded (half to even) to one decimal; the
top-N share_pct values sum to at most 100.25 — the unrounded shares sum to
at most 100, but each of the at most five roundings can add up to 0.05, so
the claimed bound of 100 itself is false. -/
theorem c2_amended (data : List Txn) (hnn : ∀ t ∈ data, 0 ≤ t.credit)
    (hpos : 0 < totalIn data) :
    (∀ r ∈ rankedRecords data, 0 ≤ r.pct ∧ r.pct ≤ 100 ∧
        r.pct = round1 (100 * groupSum data r.company / totalIn data)) ∧
    ((rankedRecords data).map Record.pct).sum ≤ 100 + 1 / 4 := by
  have hrr : rankedRecords data = (top5 data).map (recordFor data) := by
    rw [rankedRecords, if_neg (not_le.mpr hpos)]
  constructor
  · intro r hr
    rw [hrr, List.mem_map] at hr
    obtain ⟨cg, hcg, rfl⟩ := hr
    obtain ⟨_, hval⟩ := mem_top5 hcg
    show 0 ≤ pctOf data cg.2 ∧ pctOf data cg.2 ≤ 100 ∧
      pctOf data cg.2 = round1 (100 * groupSum data cg.1 / totalIn data)
    have hg0 : 0 ≤ cg.2 := by
      rw [hval]
      exact groupSum_nonneg data cg.1
    have hgT : cg.2 ≤ totalIn data := by
      rw [hval]
      exact groupSum_le_totalIn data cg.1 hnn
    refine ⟨?_, ?_, ?_⟩
    · apply round1_nonneg
      exact mul_nonneg (div_nonneg hg0 (le_of_lt hpos)) (by norm_num)
    · apply round1_le_100
      have hle1 : cg.2 / totalIn data ≤ 1 := (div_le_one hpos).mpr hgT
      linarith
    · rw [pctOf, hval]
      congr 1
      ring
  · rw [hrr]
    have hmap : ((top5 data).map (recordFor data)).map Record.pct =
        (top5 data).map (fun cg => pctOf data cg.2) := by
      rw [List.map_map]
      rfl
    rw [hmap]
    have h1 := sum_round1_le ((top5 data).map (fun cg => cg.2 / totalIn data * 100))
    rw [List.map_map, List.length_map] at h1
    have h2 := sum_map_pct (top5 data) (totalIn data)
    have h3 := top5_value_sum_le data hnn
    have h4 : ((top5 data).map Prod.snd).sum / totalIn data ≤ 1 := (div_le_one hpos).mpr h3
    have hlen : (top5 data).length ≤ 5 := by
      rw [top5, List.length_take]
      exact min_le_left _ _
    have hlenq : ((top5 data).length : ℚ) ≤ 5 := by exact_mod_cast hlen
    have hcomp : (top5 data).map ((fun q => round1 q) ∘ fun cg => cg.2 / totalIn data * 100) =
        (top5 data).map (fun cg => pctOf data cg.2) := rfl
    rw [hcomp] at h1
    have hlen0 : (0 : ℚ) ≤ (top5 data).length := by positivity
    calc ((top5 data).map (fun cg => pctOf data cg.2)).sum ≤
        ((top5 data).map (fun cg => cg.2 / totalIn data * 100)).sum +
          (top5 data).length * (1 / 20) := h1
      _ = ((top5 data).map Prod.snd).sum / totalIn data * 100 +
          (top5 data).length * (1 / 20) := by rw [h2]
      _ ≤ 100 + 5 * (1 / 20) := by nlinarith
      _ = 100 + 1 / 4 := by norm_num

/-- C2 witness: a concrete two-company input satisfying the amended
hypotheses. -/
theorem c2_amended_witness :
    (∀ t ∈ dataShareW, 0 ≤ t.credit) ∧ 0 < totalIn dataShareW ∧
    ((rankedRecords dataShareW).map Record.pct).sum ≤ 100 + 1 / 4 :=
  ⟨by with_unfolding_all decide, by with_unfolding_all decide,
   (c2_amended dataShareW (by with_unfolding_all decide)
     (by with_unfolding_all decide)).2⟩

end BankAnalyzer
